import Mathlib

/-!
Verification development for the kobuki driver core
(`src/kobuki_driver/include/kobuki_driver/kobuki.hpp`).

The repository ships only the driver's header: the constructor, destructor
and the trivial accessors `connected()` / `isEnabled()` are defined inline
there, while the bodies of `PacketFinder::checkSum`, `Kobuki::updateOdometry`,
`Kobuki::enable/disable/close` and the command path are declared but not
present.  Those missing parts are modelled here from the specification
(doc comments marked `Modelled from the spec:`); everything else is embedded
directly from the header.

Bytes are `Nat` values (< 256 on the wire); machine `unsigned short` tick
counters are `Nat` with explicit `% 2^16`; C++ `double` arithmetic is
idealised as exact `ℚ` arithmetic; the trigonometric functions used by the
pose integrator are passed in as abstract `ℚ → ℚ` parameters so that every
definition stays executable.
-/

/-! ### Wire format and frame scanner -/

/-- XOR of a list of bytes (the protocol's parity accumulator). -/
def xorList (l : List Nat) : Nat := l.foldr (fun a b => a ^^^ b) 0

/-- Modelled from the spec: the checksum window of `PacketFinder::checkSum`,
the XOR of `n` bytes starting at offset `i` (length byte, payload and
trailing checksum byte); a frame is accepted when this is zero. -/
def xorRange (s : List Nat) (i n : Nat) : Nat := xorList ((s.drop i).take n)

/-- The byte run of the candidate frame starting at position `c`:
two start bytes, the length byte, `length` payload bytes and the checksum. -/
def frameAt (s : List Nat) (c : Nat) : List Nat :=
  (s.drop c).take (4 + s.getD (c + 2) 0)

/-- The start-byte pair `0xAA 0x55` sits at position `c`. -/
abbrev headerAt (s : List Nat) (c : Nat) : Prop :=
  s.getD c 0 = 0xAA ∧ s.getD (c + 1) 0 = 0x55

/-- A complete, well-formed, checksum-valid frame begins at position `i`
of the stream: start-byte pair, plausible length byte, all bytes present,
and the XOR of length byte, payload and checksum equal to zero. -/
abbrev validFrameAt (maxLen : Nat) (s : List Nat) (i : Nat) : Prop :=
  i + 2 < s.length ∧
  s.getD i 0 = 0xAA ∧ s.getD (i + 1) 0 = 0x55 ∧
  s.getD (i + 2) 0 ≤ maxLen ∧
  i + 4 + s.getD (i + 2) 0 ≤ s.length ∧
  xorRange s (i + 2) (s.getD (i + 2) 0 + 2) = 0

/-- A candidate at position `i` whose plausible length byte asks for more
bytes than the stream still holds: the scanner stays in `ReadPayload`
awaiting input that never arrives. -/
abbrev stallAt (maxLen : Nat) (s : List Nat) (i : Nat) : Prop :=
  i + 2 < s.length ∧
  s.getD i 0 = 0xAA ∧ s.getD (i + 1) 0 = 0x55 ∧
  s.getD (i + 2) 0 ≤ maxLen ∧
  s.length < i + 4 + s.getD (i + 2) 0

/-- Modelled from the spec: the `PacketFinder` state machine
(SeekStart / ReadLength / ReadPayload / ReadChecksum / Complete) run over a
byte stream, expressed as a cursor sweep.  At cursor `c`: seek the start
pair; on an implausible length byte treat the start as spurious and resume
one byte after it; on a failed checksum discard the candidate and resume
the search after the original start byte; on success emit the frame and
continue after it; with a plausible length but too few buffered bytes the
machine remains in `ReadPayload` (no further emission).  `fuel` bounds the
sweep; `scanFrames` supplies enough for the whole stream. -/
def scanAux (maxLen : Nat) (s : List Nat) : Nat → Nat → List (List Nat)
  | 0, _ => []
  | fuel + 1, c =>
    if s.length ≤ c + 2 then []
    else if s.getD c 0 = 0xAA ∧ s.getD (c + 1) 0 = 0x55 then
      if s.getD (c + 2) 0 ≤ maxLen then
        if c + 4 + s.getD (c + 2) 0 ≤ s.length then
          if xorRange s (c + 2) (s.getD (c + 2) 0 + 2) = 0 then
            frameAt s c :: scanAux maxLen s fuel (c + 4 + s.getD (c + 2) 0)
          else scanAux maxLen s fuel (c + 1)
        else []
      else scanAux maxLen s fuel (c + 1)
    else scanAux maxLen s fuel (c + 1)

/-- All frames the scanner yields on the given byte stream. -/
def scanFrames (maxLen : Nat) (s : List Nat) : List (List Nat) :=
  scanAux maxLen s (s.length + 1) 0

/-! ### Kinematics and odometry kernel -/

/-- The header's `tick_to_mm` conversion constant (`kobuki.hpp` line 84),
idealised as the exact rational value of the source literal. -/
def tick_to_mm : ℚ := 0.0845813406577

/-- The header's `tick_to_rad` conversion constant (`kobuki.hpp` line 84). -/
def tick_to_rad : ℚ := 0.00201384144460884

/-- Modelled from the spec: the wheel-encoder tick delta of
`Kobuki::updateOdometry` — `(current − previous) mod 2^16`, with the signed
representative chosen in `[-2^15, 2^15)` (shortest-path wraparound of the
`unsigned short` counters `last_tick_left` / `last_tick_right`). -/
def tickDelta (prev cur : Nat) : ℤ :=
  let m : Nat := (cur % 65536 + 65536 - prev % 65536) % 65536
  if m < 32768 then (m : ℤ) else (m : ℤ) - 65536

/-- Linear distance travelled by one wheel during a cycle (spec §4.4 step 2). -/
def wheelDistDelta (prev cur : Nat) : ℚ := tick_to_mm * tickDelta prev cur

/-- One wheel's linear velocity over a cycle of elapsed time `dt`. -/
def wheelLinearVelocity (prev cur : Nat) (dt : ℚ) : ℚ := wheelDistDelta prev cur / dt

/-- The claim's linear velocity: the mean of the two wheels' linear velocities. -/
def meanWheelLinearVelocity (pl cl pr cr : Nat) (dt : ℚ) : ℚ :=
  (wheelLinearVelocity pl cl dt + wheelLinearVelocity pr cr dt) / 2

/-- The claim's angular velocity: right wheel distance minus left wheel
distance, divided by the wheelbase. -/
def diffDriveAngular (bias : ℚ) (pl cl pr cr : Nat) : ℚ :=
  (wheelDistDelta pr cr - wheelDistDelta pl cl) / bias

/-- Kinematics parameters, fixed at initialisation (spec §3): the wheelbase
`bias` (header field `bias`) and the plausibility bound on implied wheel
speed used by the odometry anomaly check (spec §4.4 step 3). -/
structure OdomParams where
  bias : ℚ
  speed_bound : ℚ
deriving DecidableEq

/-- The odometry state owned by the driver loop: last tick counts, unwrapped
wheel angles, pose and per-wheel velocity estimates (header fields
`last_tick_*`, `last_rad_*`, `last_velocity_*` and the pose kept in the
`kinematics` helper). -/
structure OdomState where
  last_tick_left : Nat
  last_tick_right : Nat
  last_rad_left : ℚ
  last_rad_right : ℚ
  last_velocity_left : ℚ
  last_velocity_right : ℚ
  x : ℚ
  y : ℚ
  heading : ℚ
deriving DecidableEq

/-- Result of one odometry update cycle: the new stored state, the
incremental pose delta (translation along the start heading and heading
change), the computed rates, and whether the cycle was rejected as a
transient telemetry anomaly. -/
structure OdomResult where
  state : OdomState
  pose_delta_translation : ℚ
  pose_delta_heading : ℚ
  linear_velocity : ℚ
  angular_velocity : ℚ
  anomaly : Bool
deriving DecidableEq

/-- Modelled from the spec: `Kobuki::updateOdometry` (§4.4) — tick deltas with
wraparound, conversion by `tick_to_mm` / `tick_to_rad`, rejection of a cycle
whose implied wheel speed exceeds the plausibility bound (deltas discarded,
previous state retained, anomaly reported as a diagnostic, not an error),
then differential-drive forward kinematics with first-order integration
using the heading at the start of the interval.  `cosF` / `sinF` abstract
the trigonometric functions of the position integrator. -/
def updateOdometry (P : OdomParams) (cosF sinF : ℚ → ℚ) (st : OdomState)
    (tickL tickR : Nat) (dt : ℚ) : OdomResult :=
  let dL : ℤ := tickDelta st.last_tick_left tickL
  let dR : ℤ := tickDelta st.last_tick_right tickR
  let dmL : ℚ := tick_to_mm * dL
  let dmR : ℚ := tick_to_mm * dR
  let drL : ℚ := tick_to_rad * dL
  let drR : ℚ := tick_to_rad * dR
  if |dmL / dt| > P.speed_bound ∨ |dmR / dt| > P.speed_bound then
    { state := st, pose_delta_translation := 0, pose_delta_heading := 0,
      linear_velocity := 0, angular_velocity := 0, anomaly := true }
  else
    let ds : ℚ := (dmL + dmR) / 2
    let dth : ℚ := (dmR - dmL) / P.bias
    { state :=
        { last_tick_left := tickL, last_tick_right := tickR,
          last_rad_left := st.last_rad_left + drL,
          last_rad_right := st.last_rad_right + drR,
          last_velocity_left := dmL / dt, last_velocity_right := dmR / dt,
          x := st.x + ds * cosF st.heading, y := st.y + ds * sinF st.heading,
          heading := st.heading + dth },
      pose_delta_translation := ds, pose_delta_heading := dth,
      linear_velocity := (dmL + dmR) / (2 * dt), angular_velocity := dth,
      anomaly := false }

/-! ### Driver state, lifecycle and command path -/

/-- The driver's core state, embedding the fields of class `Kobuki` that its
inline constructor initialises (`kobuki.hpp` lines 80–86) together with the
single pending-command slot (member `Command kobuki_command`, modelled as an
optional payload). -/
structure Kobuki where
  is_connected : Bool
  is_running : Bool
  is_enabled : Bool
  last_velocity_left : ℚ
  last_velocity_right : ℚ
  tick_to_mm : ℚ
  tick_to_rad : ℚ
  kobuki_command : Option (List Nat)
deriving DecidableEq

/-- The freshly constructed driver, from the constructor's initialiser list
(`kobuki.hpp` lines 80–86): zero velocity estimates, all lifecycle flags
false, and the two conversion constants. -/
def mkKobuki : Kobuki :=
  { is_connected := false, is_running := false, is_enabled := false,
    last_velocity_left := 0, last_velocity_right := 0,
    tick_to_mm := tick_to_mm, tick_to_rad := tick_to_rad,
    kobuki_command := none }

/-- The `connected()` accessor (`kobuki.hpp` lines 100–103). -/
def Kobuki.connected (k : Kobuki) : Bool := k.is_connected

/-- The `isEnabled()` accessor (`kobuki.hpp` lines 104–107). -/
def Kobuki.isEnabled (k : Kobuki) : Bool := k.is_enabled

/-- Modelled from the spec: the command encoder's frame envelope (§4.5, §6) —
start-byte pair, length byte, payload, and a checksum byte balancing the XOR
of length, payload and checksum to zero. -/
def encodeFrame (payload : List Nat) : List Nat :=
  0xAA :: 0x55 :: payload.length :: (payload ++ [xorList (payload.length :: payload)])

/-- Modelled from the spec: the payload of the safety-stop command issued on
`disable()` (a base-control command with zero speed and zero radius). -/
def safetyStopPayload : List Nat := [0x01, 0x00, 0x00, 0x00, 0x00]

/-- Modelled from the spec: setting a pending command overwrites the single
command slot (last-write-wins coalescing, §4.5; header member
`kobuki_command`). -/
def Kobuki.setCommand (k : Kobuki) (c : List Nat) : Kobuki :=
  { k with kobuki_command := some c }

/-- Modelled from the spec: the write step of the driver loop's cycle (§4.6) —
if a command is pending and the loop is Connected and Enabled, encode it,
transmit exactly one frame and clear the slot; otherwise transmit nothing.
Returns the new state and the list of frames transmitted. -/
def Kobuki.sendCycle (k : Kobuki) : Kobuki × List (List Nat) :=
  if k.is_connected && k.is_enabled then
    match k.kobuki_command with
    | some c => ({ k with kobuki_command := none }, [encodeFrame c])
    | none => (k, [])
  else (k, [])

/-- Modelled from the spec: `Kobuki::enable` gates outgoing command
transmission back on (§4.6). -/
def Kobuki.enable (k : Kobuki) : Kobuki × List (List Nat) :=
  ({ k with is_enabled := true }, [])

/-- Modelled from the spec: `Kobuki::disable` suppresses outgoing writes
without closing the link, issuing a one-time safety-stop command at the
moment of disabling (§4.6). -/
def Kobuki.disable (k : Kobuki) : Kobuki × List (List Nat) :=
  ({ k with is_enabled := false }, [encodeFrame safetyStopPayload])

/-- Modelled from the spec (and the destructor, `kobuki.hpp` lines 87–93):
`Kobuki::close` closes the link and transitions to Disconnected
unconditionally; it is total (never fails). -/
def Kobuki.close (k : Kobuki) : Kobuki × List (List Nat) :=
  ({ k with is_connected := false, is_running := false, is_enabled := false }, [])

/-- Modelled from the spec: `Kobuki::init` opens the link and starts the
worker (Disconnected → Connected); the conversion constants are untouched. -/
def Kobuki.init (k : Kobuki) : Kobuki × List (List Nat) :=
  ({ k with is_connected := true, is_running := true }, [])

/-- The operations an application can invoke between `disable()` and the
next `enable()`: set a pending command, or let a send cycle run. -/
inductive CmdOp where
  | set : List Nat → CmdOp
  | cycle : CmdOp
deriving DecidableEq

/-- Apply one post-disable operation, collecting transmitted frames. -/
def applyCmdOp : CmdOp → Kobuki → Kobuki × List (List Nat)
  | .set c, k => (k.setCommand c, [])
  | .cycle, k => k.sendCycle

/-- Run a sequence of post-disable operations, concatenating the frames
each one transmits. -/
def runCmdOps : List CmdOp → Kobuki → Kobuki × List (List Nat)
  | [], k => (k, [])
  | op :: ops, k =>
    let r := applyCmdOp op k
    let r2 := runCmdOps ops r.1
    (r2.1, r.2 ++ r2.2)

/-- Every modelled operation on a `Kobuki` instance. -/
inductive KobukiOp where
  | init | enable | disable | close | cycle
  | set : List Nat → KobukiOp
deriving DecidableEq

/-- The state reached after one operation. -/
def applyOp : KobukiOp → Kobuki → Kobuki
  | .init, k => k.init.1
  | .enable, k => k.enable.1
  | .disable, k => k.disable.1
  | .close, k => k.close.1
  | .cycle, k => k.sendCycle.1
  | .set c, k => k.setCommand c

/-- The state reached after a sequence of operations. -/
def runOps : List KobukiOp → Kobuki → Kobuki
  | [], k => k
  | op :: ops, k => runOps ops (applyOp op k)

/-- An odometry state whose two stored tick counters are `t` and whose
remaining fields are zero (used to compare pose deltas across wraparound). -/
def odomStateAt (t : Nat) : OdomState :=
  { last_tick_left := t, last_tick_right := t,
    last_rad_left := 0, last_rad_right := 0,
    last_velocity_left := 0, last_velocity_right := 0,
    x := 0, y := 0, heading := 0 }

/-! ### XOR accumulator lemmas -/

theorem xorList_cons (a : Nat) (l : List Nat) : xorList (a :: l) = a ^^^ xorList l := rfl

/-- Replacing one element of a byte list XORs its parity with old and new byte. -/
theorem xorList_set (v : Nat) : ∀ (l : List Nat) (j : Nat), j < l.length →
    xorList (l.set j v) = xorList l ^^^ (l.getD j 0 ^^^ v) := by
  intro l
  induction l with
  | nil => intro j hj; simp at hj
  | cons a t ih =>
    intro j hj
    cases j with
    | zero =>
      simp only [List.set, xorList_cons, List.getD_cons_zero]
      rw [Nat.xor_comm a (xorList t), Nat.xor_assoc, Nat.xor_cancel_left,
        Nat.xor_comm]
    | succ j =>
      simp only [List.set, xorList_cons, List.getD_cons_succ]
      rw [ih j (by simpa using hj), Nat.xor_assoc]

/-! ### Scanner stepping lemmas -/

/-- With fewer than three bytes left the scanner cannot leave `SeekStart` /
`ReadLength` and emits nothing more. -/
theorem scanAux_stop {maxLen : Nat} {s : List Nat} {c : Nat} (fuel : Nat)
    (h : s.length ≤ c + 2) : scanAux maxLen s fuel c = [] := by
  cases fuel with
  | zero => rfl
  | succ f => simp only [scanAux]; rw [if_pos h]

/-- A stalled candidate leaves the scanner waiting in `ReadPayload`:
nothing further is emitted. -/
theorem scanAux_stall_eq {maxLen : Nat} {s : List Nat} {c : Nat} (fuel : Nat)
    (h : stallAt maxLen s c) : scanAux maxLen s (fuel + 1) c = [] := by
  obtain ⟨h1, h2, h3, h4, h5⟩ := h
  simp only [scanAux]
  rw [if_neg (by omega), if_pos ⟨h2, h3⟩, if_pos h4, if_neg (by omega)]

/-- A valid frame at the cursor is emitted and the scan continues after it. -/
theorem scanAux_emit {maxLen : Nat} {s : List Nat} {c : Nat} (fuel : Nat)
    (h : validFrameAt maxLen s c) :
    scanAux maxLen s (fuel + 1) c =
      frameAt s c :: scanAux maxLen s fuel (c + 4 + s.getD (c + 2) 0) := by
  obtain ⟨h1, h2, h3, h4, h5, h6⟩ := h
  simp only [scanAux]
  rw [if_neg (by omega), if_pos ⟨h2, h3⟩, if_pos h4, if_pos h5, if_pos h6]

/-- At a position with neither a valid frame nor a stalled candidate the
scanner advances one byte (seek, implausible length, or failed checksum
resuming after the original start byte). -/
theorem scanAux_skip {maxLen : Nat} {s : List Nat} {c : Nat} (fuel : Nat)
    (h1 : c + 2 < s.length) (hnv : ¬ validFrameAt maxLen s c)
    (hns : ¬ stallAt maxLen s c) :
    scanAux maxLen s (fuel + 1) c = scanAux maxLen s fuel (c + 1) := by
  simp only [scanAux]
  rw [if_neg (by omega)]
  by_cases hh : s.getD c 0 = 0xAA ∧ s.getD (c + 1) 0 = 0x55
  · rw [if_pos hh]
    by_cases hL : s.getD (c + 2) 0 ≤ maxLen
    · rw [if_pos hL]
      have hcomp : c + 4 + s.getD (c + 2) 0 ≤ s.length := by
        by_contra hc
        exact hns ⟨h1, hh.1, hh.2, hL, by omega⟩
      rw [if_pos hcomp,
        if_neg (fun h0 => hnv ⟨h1, hh.1, hh.2, hL, hcomp, h0⟩)]
    · rw [if_neg hL]
  · rw [if_neg hh]

/-- Soundness: every frame the scanner emits is a complete checksum-valid
frame of the stream, at a position at or after the cursor. -/
theorem scanAux_sound {maxLen : Nat} {s : List Nat} :
    ∀ (fuel c : Nat) (f : List Nat), f ∈ scanAux maxLen s fuel c →
      ∃ i, c ≤ i ∧ validFrameAt maxLen s i ∧ f = frameAt s i := by
  intro fuel
  induction fuel with
  | zero => intro c f hf; exact absurd hf (List.not_mem_nil f)
  | succ fl ih =>
    intro c f hf
    by_cases h1 : s.length ≤ c + 2
    · rw [scanAux_stop _ h1] at hf
      exact absurd hf (List.not_mem_nil f)
    · by_cases hv : validFrameAt maxLen s c
      · rw [scanAux_emit fl hv] at hf
        rcases List.mem_cons.mp hf with h | h
        · exact ⟨c, le_refl c, hv, h⟩
        · obtain ⟨i, hi, hvi, hfi⟩ := ih _ _ h
          exact ⟨i, by omega, hvi, hfi⟩
      · by_cases hst : stallAt maxLen s c
        · rw [scanAux_stall_eq fl hst] at hf
          exact absurd hf (List.not_mem_nil f)
        · rw [scanAux_skip fl (by omega) hv hst] at hf
          obtain ⟨i, hi, hvi, hfi⟩ := ih _ _ hf
          exact ⟨i, by omega, hvi, hfi⟩

/-- If no valid frame starts at or after the cursor, nothing is emitted. -/
theorem scanAux_nil {maxLen : Nat} {s : List Nat} :
    ∀ (fuel c : Nat), (∀ i, c ≤ i → ¬ validFrameAt maxLen s i) →
      scanAux maxLen s fuel c = [] := by
  intro fuel
  induction fuel with
  | zero => intro c _; rfl
  | succ fl ih =>
    intro c h
    by_cases h1 : s.length ≤ c + 2
    · exact scanAux_stop _ h1
    · by_cases hst : stallAt maxLen s c
      · exact scanAux_stall_eq fl hst
      · rw [scanAux_skip fl (by omega) (h c (le_refl c)) hst]
        exact ih (c + 1) (fun i hi => h i (by omega))

/-- Over a run of positions holding neither a valid frame nor a stalled
candidate, the scanner just advances, one byte (and one fuel unit) at a
time. -/
theorem scanAux_skipRange {maxLen : Nat} {s : List Nat} :
    ∀ (d fuel c : Nat), d ≤ fuel → c + d + 2 ≤ s.length →
      (∀ i, c ≤ i → i < c + d → ¬ validFrameAt maxLen s i ∧ ¬ stallAt maxLen s i) →
      scanAux maxLen s fuel c = scanAux maxLen s (fuel - d) (c + d) := by
  intro d
  induction d with
  | zero => intro fuel c _ _ _; simp
  | succ dd ih =>
    intro fuel c hd hlen hcond
    obtain ⟨f, rfl⟩ : ∃ f, fuel = f + 1 := ⟨fuel - 1, by omega⟩
    rw [scanAux_skip f (by omega) (hcond c (le_refl c) (by omega)).1
      (hcond c (le_refl c) (by omega)).2]
    rw [ih f (c + 1) (by omega) (by omega)
      (fun i hi hilt => hcond i (by omega) (by omega))]
    congr 1 <;> omega

/-! ### C1 — frame-scanner resynchronization -/

/-- C1 (amended).  For a byte stream containing exactly one complete
checksum-valid frame (at position `p`), the PacketFinder never yields any
frame other than that one; and it yields exactly that one provided no
start-byte pair before `p` begins a plausible-length candidate that extends
past the end of the stream (such a candidate leaves the scanner waiting in
`ReadPayload` for bytes that never arrive). -/
theorem resync_yields_unique_frame (maxLen : Nat) (s : List Nat) (p : Nat)
    (hp : validFrameAt maxLen s p)
    (huniq : ∀ i, i < s.length → validFrameAt maxLen s i → i = p) :
    (∀ f ∈ scanFrames maxLen s, f = frameAt s p) ∧
    ((∀ i, i < p → ¬ stallAt maxLen s i) →
      scanFrames maxLen s = [frameAt s p]) := by
  have hplen : p + 2 < s.length := hp.1
  constructor
  · intro f hf
    obtain ⟨i, _, hvi, hfi⟩ := scanAux_sound (s.length + 1) 0 f hf
    have : i = p := huniq i (by have := hvi.1; omega) hvi
    rw [hfi, this]
  · intro hns
    have hspan : p + 4 + s.getD (p + 2) 0 ≤ s.length := hp.2.2.2.2.1
    unfold scanFrames
    rw [scanAux_skipRange p (s.length + 1) 0 (by omega) (by omega)
      (fun i hi hilt => ⟨fun hv => by
          have := huniq i (by have := hv.1; omega) hv; omega,
        hns i (by omega)⟩)]
    obtain ⟨f2, hf2⟩ : ∃ f2, s.length + 1 - p = f2 + 1 := ⟨s.length - p, by omega⟩
    rw [hf2, Nat.zero_add, scanAux_emit f2 hp]
    rw [scanAux_nil f2 (p + 4 + s.getD (p + 2) 0) (fun i hi hv => by
      have := huniq i (by have := hv.1; omega) hv; omega)]

/-- Witness for C1: a stream with one valid frame at position 1,
surrounded by noise; the scanner yields exactly that frame. -/
theorem resync_yields_unique_frame_witness :
    scanFrames 255 [0x00, 0xAA, 0x55, 0x01, 0x05, 0x04, 0x07] =
      [frameAt [0x00, 0xAA, 0x55, 0x01, 0x05, 0x04, 0x07] 1] :=
  (resync_yields_unique_frame 255 [0x00, 0xAA, 0x55, 0x01, 0x05, 0x04, 0x07] 1
    (by decide) (by decide)).2 (by decide)

/-- Counterexample to C1 as stated: the stream `AA 55 FF AA 55 01 01 00`
contains exactly one complete checksum-valid frame (at position 3), yet the
scanner yields no frame at all — the stray start pair at position 0 with
length byte `FF` leaves it waiting in `ReadPayload` for bytes that never
arrive, so the embedded valid frame is never found. -/
theorem resync_missed_frame_on_stall :
    (validFrameAt 255 [0xAA, 0x55, 0xFF, 0xAA, 0x55, 0x01, 0x01, 0x00] 3 ∧
     (∀ i, i < 8 → validFrameAt 255 [0xAA, 0x55, 0xFF, 0xAA, 0x55, 0x01, 0x01, 0x00] i → i = 3)) ∧
    scanFrames 255 [0xAA, 0x55, 0xFF, 0xAA, 0x55, 0x01, 0x01, 0x00] = [] ∧
    scanFrames 255 [0xAA, 0x55, 0xFF, 0xAA, 0x55, 0x01, 0x01, 0x00] ≠
      [frameAt [0xAA, 0x55, 0xFF, 0xAA, 0x55, 0x01, 0x01, 0x00] 3] := by decide

/-! ### C2 — checksum rejection with recovery -/

/-- `getD` is unchanged off the updated index. -/
theorem getD_set_ne (l : List Nat) (j i v : Nat) (h : j ≠ i) :
    (l.set j v).getD i 0 = l.getD i 0 := by
  rw [List.getD_eq_getElem?_getD, List.getD_eq_getElem?_getD, List.getElem?_set_ne h]

/-- `getD` through `drop`. -/
theorem getD_drop (l : List Nat) (n i : Nat) :
    (l.drop n).getD i 0 = l.getD (n + i) 0 := by
  rw [List.getD_eq_getElem?_getD, List.getD_eq_getElem?_getD, List.getElem?_drop]

/-- Flipping bit `k` of byte `j` (payload or checksum region) of an
exact-length checksum-valid frame changes the checksum XOR from `0`
to `2 ^ k`. -/
theorem xorRange_flip (F : List Nat) (j k : Nat)
    (hFlen : F.length = 4 + F.getD 2 0)
    (hx : xorRange F 2 (F.getD 2 0 + 2) = 0)
    (hj : 3 ≤ j) (hjlt : j < F.length) :
    xorRange (F.set j (F.getD j 0 ^^^ 2 ^ k)) 2 (F.getD 2 0 + 2) = 2 ^ k := by
  have hdlen : (F.drop 2).length = F.getD 2 0 + 2 := by
    rw [List.length_drop]; omega
  have hfull : xorRange F 2 (F.getD 2 0 + 2) = xorList (F.drop 2) := by
    unfold xorRange
    rw [List.take_of_length_le (by omega)]
  have hset : (F.set j (F.getD j 0 ^^^ 2 ^ k)).drop 2 =
      (F.drop 2).set (j - 2) (F.getD j 0 ^^^ 2 ^ k) := by
    rw [List.drop_set, if_neg (by omega)]
  have hsetlen : ((F.drop 2).set (j - 2) (F.getD j 0 ^^^ 2 ^ k)).length =
      F.getD 2 0 + 2 := by
    rw [List.length_set]; exact hdlen
  unfold xorRange
  rw [hset, List.take_of_length_le (by omega)]
  rw [xorList_set _ _ _ (by omega)]
  rw [getD_drop, Nat.add_sub_cancel' (by omega : 2 ≤ j)]
  rw [← hfull, hx, Nat.zero_xor, Nat.xor_cancel_left]

/-- A standalone exact-length valid frame is a valid frame of any stream
extending it on the left. -/
theorem validFrameAt_append (maxLen : Nat) (A G : List Nat)
    (hG : validFrameAt maxLen G 0) (hGlen : G.length = 4 + G.getD 2 0) :
    validFrameAt maxLen (A ++ G) A.length := by
  obtain ⟨g1, g2, g3, g4, g5, g6⟩ := hG
  have et : ∀ t, (A ++ G).getD (A.length + t) 0 = G.getD t 0 := by
    intro t
    rw [List.getD_append_right _ _ _ _ (by omega)]
    congr 1
    omega
  have e0 : (A ++ G).getD A.length 0 = G.getD 0 0 := by
    have := et 0; rwa [Nat.add_zero] at this
  refine ⟨?_, ?_, ?_, ?_, ?_, ?_⟩
  · rw [List.length_append]; omega
  · rw [e0]; simpa using g2
  · rw [et 1]; simpa using g3
  · rw [et 2]; exact g4
  · rw [et 2, List.length_append]; omega
  · have hdrop : (A ++ G).drop (A.length + 2) = G.drop 2 := List.drop_append 2
    unfold xorRange at g6 ⊢
    rw [et 2, hdrop]
    simpa using g6

/-- C2 (amended).  Take a captured exact-length checksum-valid frame `F`,
flip one bit (`k < 8`) of one byte of its payload or checksum
(index `j ≥ 3`), and let a further exact-length valid frame `G` follow it
in the stream.  The corrupted frame fails its checksum and is never
emitted, and — provided no interior position of the corrupted bytes begins
a checksum-valid or stream-exceeding candidate of its own — the scanner
recovers and yields exactly the following valid frame. -/
theorem checksum_rejection_recovery (maxLen : Nat) (F G : List Nat) (j k : Nat)
    (hF : validFrameAt maxLen F 0) (hFlen : F.length = 4 + F.getD 2 0)
    (hj : 3 ≤ j) (hjlt : j < F.length) (_hk : k < 8)
    (hG : validFrameAt maxLen G 0) (hGlen : G.length = 4 + G.getD 2 0)
    (hclean : ∀ i, i < F.length → 0 < i →
      ¬ validFrameAt maxLen (F.set j (F.getD j 0 ^^^ 2 ^ k) ++ G) i ∧
      ¬ stallAt maxLen (F.set j (F.getD j 0 ^^^ 2 ^ k) ++ G) i) :
    scanFrames maxLen (F.set j (F.getD j 0 ^^^ 2 ^ k) ++ G) = [G] ∧
    F.set j (F.getD j 0 ^^^ 2 ^ k) ≠ G := by
  obtain ⟨f1, f2, f3, f4, f5, f6⟩ := hF
  have hG1 := hG.1
  set F' : List Nat := F.set j (F.getD j 0 ^^^ 2 ^ k) with hF'def
  set s : List Nat := F' ++ G with hsdef
  have hF'len : F'.length = F.length := List.length_set F j _
  have hslen : s.length = F.length + G.length := by
    rw [hsdef, List.length_append, hF'len]
  have hgetF' : ∀ i, i < F.length → s.getD i 0 = F'.getD i 0 := by
    intro i hi
    exact List.getD_append F' G 0 i (by omega)
  have hL2 : s.getD 2 0 = F.getD 2 0 := by
    rw [hgetF' 2 (by omega), hF'def, getD_set_ne F j 2 _ (by omega)]
  have hxflip : xorRange F' 2 (F.getD 2 0 + 2) = 2 ^ k :=
    xorRange_flip F j k hFlen f6 hj hjlt
  have hxs : xorRange s 2 (F.getD 2 0 + 2) = 2 ^ k := by
    unfold xorRange at hxflip ⊢
    rw [hsdef, List.drop_append_of_le_length (by omega)]
    have : (F'.drop 2).length = F.getD 2 0 + 2 := by
      rw [List.length_drop, hF'len]; omega
    rw [List.take_append_of_le_length (by omega)] at *
    exact hxflip
  have hpow : (0:Nat) < 2 ^ k := by positivity
  have hnv0 : ¬ validFrameAt maxLen s 0 := by
    intro hv
    have := hv.2.2.2.2.2
    rw [show (0:Nat) + 2 = 2 by rfl] at this
    rw [hL2] at this
    rw [hxs] at this
    omega
  have hns0 : ¬ stallAt maxLen s 0 := by
    intro hs
    have := hs.2.2.2.2
    rw [show (0:Nat) + 2 = 2 by rfl, hL2] at this
    omega
  have hneq : F' ≠ G := by
    intro h
    have hLG : F.getD 2 0 = G.getD 2 0 := by
      rw [← hL2, hgetF' 2 (by omega), h]
    have := hG.2.2.2.2.2
    rw [← hLG, ← h] at this
    simp only [Nat.zero_add] at this
    rw [hxflip] at this
    omega
  refine ⟨?_, hneq⟩
  unfold scanFrames
  rw [scanAux_skip s.length (by omega) hnv0 hns0]
  rw [scanAux_skipRange (F.length - 1) s.length 1 (by omega) (by omega)
    (fun i hi hilt => hclean i (by omega) (by omega))]

  have hc : 1 + (F.length - 1) = F'.length := by omega
  rw [hc]
  have hvG : validFrameAt maxLen s F'.length := validFrameAt_append maxLen F' G hG hGlen
  obtain ⟨f9, hf9⟩ : ∃ f9, s.length - (F.length - 1) = f9 + 1 :=
    ⟨s.length - F.length, by omega⟩
  rw [hf9, scanAux_emit f9 hvG]
  have hLG : s.getD (F'.length + 2) 0 = G.getD 2 0 := by
    rw [hsdef, List.getD_append_right _ _ _ _ (by omega)]
    congr 1
    omega
  have hframe : frameAt s F'.length = G := by
    unfold frameAt
    rw [hLG, hsdef, List.drop_left, List.take_of_length_le (by omega)]
  rw [hframe, scanAux_stop f9 (by rw [hLG]; omega)]
/-- Witness for C2: frame `AA 55 01 05 04` with bit 1 of its payload byte
flipped, followed by the valid frame `AA 55 00 00`; the corrupted frame is
discarded and the following frame is the only one yielded. -/
theorem checksum_rejection_recovery_witness :
    scanFrames 255 ([0xAA, 0x55, 0x01, 0x05, 0x04].set 3
        ([0xAA, 0x55, 0x01, 0x05, 0x04].getD 3 0 ^^^ 2 ^ 1) ++
      [0xAA, 0x55, 0x00, 0x00]) = [[0xAA, 0x55, 0x00, 0x00]] ∧
    [0xAA, 0x55, 0x01, 0x05, 0x04].set 3
        ([0xAA, 0x55, 0x01, 0x05, 0x04].getD 3 0 ^^^ 2 ^ 1) ≠
      [0xAA, 0x55, 0x00, 0x00] :=
  checksum_rejection_recovery 255 [0xAA, 0x55, 0x01, 0x05, 0x04]
    [0xAA, 0x55, 0x00, 0x00] 3 1 (by decide) (by decide) (by decide) (by decide)
    (by decide) (by decide) (by decide) (by decide)

/-- Counterexample to C2 as stated: flip bit 0 of the payload byte `FE` of
the checksum-valid frame `AA 55 03 AA 55 FE 02` and append the valid frame
`AA 55 00 00`.  The corrupted frame is discarded, but the flip turns its
payload into a stray start pair whose length byte `FF` leaves the scanner
waiting in `ReadPayload`, so the following valid frame is never emitted:
the scanner yields nothing at all. -/
theorem checksum_rejection_missed_next_frame :
    (validFrameAt 255 [0xAA, 0x55, 0x03, 0xAA, 0x55, 0xFE, 0x02] 0 ∧
     [0xAA, 0x55, 0x03, 0xAA, 0x55, 0xFE, 0x02].length =
       4 + [0xAA, 0x55, 0x03, 0xAA, 0x55, 0xFE, 0x02].getD 2 0 ∧
     validFrameAt 255 [0xAA, 0x55, 0x00, 0x00] 0 ∧
     ([0xAA, 0x55, 0x00, 0x00] : List Nat).length = 4 + [0xAA, 0x55, 0x00, 0x00].getD 2 0) ∧
    scanFrames 255 ([0xAA, 0x55, 0x03, 0xAA, 0x55, 0xFE, 0x02].set 5
        ([0xAA, 0x55, 0x03, 0xAA, 0x55, 0xFE, 0x02].getD 5 0 ^^^ 2 ^ 0) ++
      [0xAA, 0x55, 0x00, 0x00]) = [] := by decide

/-! ### C3 — wraparound-correct tick deltas -/

/-- Two update cycles whose tick deltas agree componentwise produce the same
pose delta, whatever the parameters and elapsed time. -/
theorem updateOdometry_poseDelta_congr (P : OdomParams) (cosF sinF : ℚ → ℚ)
    (st st' : OdomState) (tl tr tl' tr' : Nat) (dt : ℚ)
    (hL : tickDelta st.last_tick_left tl = tickDelta st'.last_tick_left tl')
    (hR : tickDelta st.last_tick_right tr = tickDelta st'.last_tick_right tr') :
    (updateOdometry P cosF sinF st tl tr dt).pose_delta_translation =
      (updateOdometry P cosF sinF st' tl' tr' dt).pose_delta_translation ∧
    (updateOdometry P cosF sinF st tl tr dt).pose_delta_heading =
      (updateOdometry P cosF sinF st' tl' tr' dt).pose_delta_heading := by
  simp only [updateOdometry]
  rw [hL, hR]
  constructor <;>
    simp only [apply_ite OdomResult.pose_delta_translation,
      apply_ite OdomResult.pose_delta_heading]

/-- Two update cycles whose tick deltas are componentwise negatives produce
opposite pose deltas. -/
theorem updateOdometry_poseDelta_neg (P : OdomParams) (cosF sinF : ℚ → ℚ)
    (st st' : OdomState) (tl tr tl' tr' : Nat) (dt : ℚ)
    (hL : tickDelta st.last_tick_left tl = -(tickDelta st'.last_tick_left tl'))
    (hR : tickDelta st.last_tick_right tr = -(tickDelta st'.last_tick_right tr')) :
    (updateOdometry P cosF sinF st tl tr dt).pose_delta_translation =
      -(updateOdometry P cosF sinF st' tl' tr' dt).pose_delta_translation ∧
    (updateOdometry P cosF sinF st tl tr dt).pose_delta_heading =
      -(updateOdometry P cosF sinF st' tl' tr' dt).pose_delta_heading := by
  simp only [updateOdometry]
  rw [hL, hR]
  simp only [Int.cast_neg, mul_neg, neg_div, abs_neg]
  constructor <;>
      simp only [apply_ite OdomResult.pose_delta_translation,
        apply_ite OdomResult.pose_delta_heading] <;>
    split <;> ring

/-- C3.  The odometry tick delta is `(current − previous) mod 2^16` with the
signed representative in `[-2^15, 2^15)`; concretely, the wrap-forward pair
`previous = 65530, current = 4` yields the same per-wheel distance and the
same pose delta as `previous = 0, current = 10`, and the wrap-backward pair
`previous = 5, current = 65531` yields their negatives. -/
theorem tickDelta_wraparound :
    (∀ prev cur : Nat,
      tickDelta prev cur ≡ (cur : ℤ) - (prev : ℤ) [ZMOD 65536] ∧
      -(2 ^ 15) ≤ tickDelta prev cur ∧ tickDelta prev cur < 2 ^ 15) ∧
    (tickDelta 65530 4 = tickDelta 0 10 ∧
     wheelDistDelta 65530 4 = wheelDistDelta 0 10 ∧
     tickDelta 5 65531 = -(tickDelta 0 10) ∧
     wheelDistDelta 5 65531 = -(wheelDistDelta 0 10)) ∧
    (∀ (P : OdomParams) (cosF sinF : ℚ → ℚ) (dt : ℚ),
      ((updateOdometry P cosF sinF (odomStateAt 65530) 4 4 dt).pose_delta_translation =
        (updateOdometry P cosF sinF (odomStateAt 0) 10 10 dt).pose_delta_translation ∧
       (updateOdometry P cosF sinF (odomStateAt 65530) 4 4 dt).pose_delta_heading =
        (updateOdometry P cosF sinF (odomStateAt 0) 10 10 dt).pose_delta_heading) ∧
      ((updateOdometry P cosF sinF (odomStateAt 5) 65531 65531 dt).pose_delta_translation =
        -(updateOdometry P cosF sinF (odomStateAt 0) 10 10 dt).pose_delta_translation ∧
       (updateOdometry P cosF sinF (odomStateAt 5) 65531 65531 dt).pose_delta_heading =
        -(updateOdometry P cosF sinF (odomStateAt 0) 10 10 dt).pose_delta_heading)) := by
  refine ⟨?_, ⟨by decide, ?_, by decide, ?_⟩, ?_⟩
  · intro prev cur
    simp only [tickDelta, Int.ModEq]
    refine ⟨?_, ?_, ?_⟩ <;> split <;> omega
  · unfold wheelDistDelta
    rw [show tickDelta 65530 4 = tickDelta 0 10 by decide]
  · unfold wheelDistDelta
    rw [show tickDelta 5 65531 = -(tickDelta 0 10) by decide]
    push_cast
    ring
  · intro P cosF sinF dt
    exact ⟨updateOdometry_poseDelta_congr P cosF sinF _ _ _ _ _ _ dt
        (by decide) (by decide),
      updateOdometry_poseDelta_neg P cosF sinF _ _ _ _ _ _ dt
        (by decide) (by decide)⟩

/-! ### C4 — differential-drive forward kinematics -/

/-- C4.  In every accepted update cycle (implied wheel speeds within the
plausibility bound), the computed linear velocity equals the mean of the two
wheels' linear velocities, and the computed angular velocity equals the
right wheel distance minus the left wheel distance, divided by the
wheelbase. -/
theorem updateOdometry_forward_kinematics (P : OdomParams) (cosF sinF : ℚ → ℚ)
    (st : OdomState) (tl tr : Nat) (dt : ℚ)
    (h : ¬ (|wheelLinearVelocity st.last_tick_left tl dt| > P.speed_bound ∨
            |wheelLinearVelocity st.last_tick_right tr dt| > P.speed_bound)) :
    (updateOdometry P cosF sinF st tl tr dt).anomaly = false ∧
    (updateOdometry P cosF sinF st tl tr dt).linear_velocity =
      meanWheelLinearVelocity st.last_tick_left tl st.last_tick_right tr dt ∧
    (updateOdometry P cosF sinF st tl tr dt).angular_velocity =
      diffDriveAngular P.bias st.last_tick_left tl st.last_tick_right tr := by
  have hcond : ¬ (|tick_to_mm * ((tickDelta st.last_tick_left tl : ℤ) : ℚ) / dt| >
        P.speed_bound ∨
      |tick_to_mm * ((tickDelta st.last_tick_right tr : ℤ) : ℚ) / dt| >
        P.speed_bound) := by
    simpa [wheelLinearVelocity, wheelDistDelta] using h
  simp only [updateOdometry]
  rw [if_neg hcond]
  refine ⟨rfl, ?_, ?_⟩
  · simp only [meanWheelLinearVelocity, wheelLinearVelocity, wheelDistDelta]
    ring
  · simp only [diffDriveAngular, wheelDistDelta]

/-- Witness for C4: an accepted cycle of ten forward ticks on each wheel in
one time unit, against a generous speed bound. -/
theorem updateOdometry_forward_kinematics_witness :
    (updateOdometry ⟨1, 1000⟩ (fun _ => 0) (fun _ => 0) (odomStateAt 0) 10 10 1).anomaly = false ∧
    (updateOdometry ⟨1, 1000⟩ (fun _ => 0) (fun _ => 0) (odomStateAt 0) 10 10 1).linear_velocity =
      meanWheelLinearVelocity (odomStateAt 0).last_tick_left 10
        (odomStateAt 0).last_tick_right 10 1 ∧
    (updateOdometry ⟨1, 1000⟩ (fun _ => 0) (fun _ => 0) (odomStateAt 0) 10 10 1).angular_velocity =
      diffDriveAngular (OdomParams.mk 1 1000).bias (odomStateAt 0).last_tick_left 10
        (odomStateAt 0).last_tick_right 10 :=
  updateOdometry_forward_kinematics ⟨1, 1000⟩ (fun _ => 0) (fun _ => 0)
    (odomStateAt 0) 10 10 1 (by
      simp only [odomStateAt, wheelLinearVelocity, wheelDistDelta,
        show tickDelta 0 10 = (10 : ℤ) by decide]
      norm_num [tick_to_mm]
      rw [abs_le]
      constructor <;> norm_num)

/-! ### C5 — odometry anomaly atomicity -/

/-- C5.  A cycle whose implied wheel speed exceeds the plausibility bound is
rejected atomically: the stored odometry state is exactly what it was before
the cycle, all emitted deltas and rates are zero, and the event is reported
only through the non-fatal `anomaly` diagnostic flag (the update is total —
no error is raised to the caller). -/
theorem updateOdometry_anomaly_atomic (P : OdomParams) (cosF sinF : ℚ → ℚ)
    (st : OdomState) (tl tr : Nat) (dt : ℚ)
    (h : |wheelLinearVelocity st.last_tick_left tl dt| > P.speed_bound ∨
         |wheelLinearVelocity st.last_tick_right tr dt| > P.speed_bound) :
    (updateOdometry P cosF sinF st tl tr dt).state = st ∧
    (updateOdometry P cosF sinF st tl tr dt).pose_delta_translation = 0 ∧
    (updateOdometry P cosF sinF st tl tr dt).pose_delta_heading = 0 ∧
    (updateOdometry P cosF sinF st tl tr dt).linear_velocity = 0 ∧
    (updateOdometry P cosF sinF st tl tr dt).angular_velocity = 0 ∧
    (updateOdometry P cosF sinF st tl tr dt).anomaly = true := by
  have hcond : |tick_to_mm * ((tickDelta st.last_tick_left tl : ℤ) : ℚ) / dt| >
        P.speed_bound ∨
      |tick_to_mm * ((tickDelta st.last_tick_right tr : ℤ) : ℚ) / dt| >
        P.speed_bound := by
    simpa [wheelLinearVelocity, wheelDistDelta] using h
  simp only [updateOdometry]
  rw [if_pos hcond]
  exact ⟨rfl, rfl, rfl, rfl, rfl, rfl⟩

/-- Witness for C5: ten forward ticks in one time unit against a zero speed
bound trips the anomaly check, and the cycle is discarded atomically. -/
theorem updateOdometry_anomaly_atomic_witness :
    (updateOdometry ⟨1, 0⟩ (fun _ => 0) (fun _ => 0) (odomStateAt 0) 10 10 1).state = odomStateAt 0 ∧
    (updateOdometry ⟨1, 0⟩ (fun _ => 0) (fun _ => 0) (odomStateAt 0) 10 10 1).pose_delta_translation = 0 ∧
    (updateOdometry ⟨1, 0⟩ (fun _ => 0) (fun _ => 0) (odomStateAt 0) 10 10 1).pose_delta_heading = 0 ∧
    (updateOdometry ⟨1, 0⟩ (fun _ => 0) (fun _ => 0) (odomStateAt 0) 10 10 1).linear_velocity = 0 ∧
    (updateOdometry ⟨1, 0⟩ (fun _ => 0) (fun _ => 0) (odomStateAt 0) 10 10 1).angular_velocity = 0 ∧
    (updateOdometry ⟨1, 0⟩ (fun _ => 0) (fun _ => 0) (odomStateAt 0) 10 10 1).anomaly = true :=
  updateOdometry_anomaly_atomic ⟨1, 0⟩ (fun _ => 0) (fun _ => 0)
    (odomStateAt 0) 10 10 1 (Or.inl (by
      simp only [odomStateAt, wheelLinearVelocity, wheelDistDelta,
        show tickDelta 0 10 = (10 : ℤ) by decide]
      norm_num [tick_to_mm]))

/-! ### C6 — command coalescing -/

/-- C6.  Setting command `a` and then command `b` before the next send cycle
leaves the single command slot holding `b` (last-write-wins, no queue), and
the send cycle of a connected, enabled driver transmits exactly one frame,
encoding `b`. -/
theorem command_coalescing (k : Kobuki) (a b : List Nat)
    (hc : k.is_connected = true) (he : k.is_enabled = true) :
    ((k.setCommand a).setCommand b).kobuki_command = some b ∧
    ((k.setCommand a).setCommand b).sendCycle.2 = [encodeFrame b] ∧
    ((k.setCommand a).setCommand b).sendCycle.2.length = 1 := by
  refine ⟨rfl, ?_, ?_⟩ <;> simp [Kobuki.setCommand, Kobuki.sendCycle, hc, he]

/-- Witness for C6: a connected, enabled driver with commands `[1, 2]` then
`[3]` set before one send cycle. -/
theorem command_coalescing_witness :
    ((Kobuki.mk true false true 0 0 tick_to_mm tick_to_rad none).setCommand
        [1, 2] |>.setCommand [3]).kobuki_command = some [3] ∧
    ((Kobuki.mk true false true 0 0 tick_to_mm tick_to_rad none).setCommand
        [1, 2] |>.setCommand [3]).sendCycle.2 = [encodeFrame [3]] ∧
    ((Kobuki.mk true false true 0 0 tick_to_mm tick_to_rad none).setCommand
        [1, 2] |>.setCommand [3]).sendCycle.2.length = 1 :=
  command_coalescing (Kobuki.mk true false true 0 0 tick_to_mm tick_to_rad none)
    [1, 2] [3] rfl rfl

/-! ### C7 — disable stops transmission -/

/-- While the driver stays disabled, no sequence of pending-command writes
and send cycles transmits anything, and the connection flag is untouched. -/
theorem runCmdOps_disabled : ∀ (ops : List CmdOp) (k : Kobuki),
    k.is_enabled = false →
    (runCmdOps ops k).2 = [] ∧
    (runCmdOps ops k).1.is_connected = k.is_connected ∧
    (runCmdOps ops k).1.is_enabled = false := by
  intro ops
  induction ops with
  | nil => intro k hk; exact ⟨rfl, rfl, hk⟩
  | cons op ops ih =>
    intro k hk
    cases op with
    | set c =>
      have h := ih (k.setCommand c) hk
      simp only [runCmdOps, applyCmdOp]
      exact ⟨by simp [h.1], h.2.1, h.2.2⟩
    | cycle =>
      have hsc : k.sendCycle = (k, []) := by
        simp [Kobuki.sendCycle, hk]
      have h := ih k hk
      simp only [runCmdOps, applyCmdOp, hsc]
      exact ⟨by simp [h.1], h.2.1, h.2.2⟩

/-- C7.  `disable()` issues the one-time safety-stop frame; from then on,
until `enable()` is called again (the operations available exclude it), no
command frame is transmitted regardless of pending commands, and the serial
link's connection state is untouched (the link stays open). -/
theorem disable_stops_transmission (k : Kobuki) (ops : List CmdOp) :
    k.disable.2 = [encodeFrame safetyStopPayload] ∧
    (runCmdOps ops k.disable.1).2 = [] ∧
    (runCmdOps ops k.disable.1).1.is_connected = k.is_connected := by
  have h := runCmdOps_disabled ops k.disable.1 rfl
  exact ⟨rfl, h.1, h.2.1⟩

/-! ### C8 — close() is idempotent -/

/-- C8.  `close()` leaves the driver Disconnected from every state, a second
`close()` immediately afterwards succeeds (it is a total function, raising
no error) and leaves the Disconnected state again — indeed the exact same
state. -/
theorem close_idempotent (k : Kobuki) :
    (k.close.1).connected = false ∧
    ((k.close.1).close.1).connected = false ∧
    (k.close.1).close.1 = k.close.1 :=
  ⟨rfl, rfl, rfl⟩

/-! ### C9 — initial-state postcondition of construction -/

/-- C9.  A freshly constructed driver is not connected, not enabled, not
running, and both wheel-velocity estimates are zero (`kobuki.hpp` lines
80–86, 100–107). -/
theorem constructor_postcondition :
    mkKobuki.connected = false ∧ mkKobuki.isEnabled = false ∧
    mkKobuki.is_running = false ∧
    mkKobuki.last_velocity_left = 0 ∧ mkKobuki.last_velocity_right = 0 :=
  ⟨rfl, rfl, rfl, rfl, rfl⟩

/-! ### C10 — fixed conversion constants -/

/-- No single modelled operation changes the conversion constants. -/
theorem applyOp_preserves_constants (op : KobukiOp) (k : Kobuki) :
    (applyOp op k).tick_to_mm = k.tick_to_mm ∧
    (applyOp op k).tick_to_rad = k.tick_to_rad := by
  cases op with
  | cycle =>
    simp only [applyOp, Kobuki.sendCycle]
    by_cases hb : k.is_connected && k.is_enabled
    · rw [if_pos hb]
      cases hcmd : k.kobuki_command <;> simp
    · rw [if_neg hb]
      exact ⟨rfl, rfl⟩
  | init => exact ⟨rfl, rfl⟩
  | enable => exact ⟨rfl, rfl⟩
  | disable => exact ⟨rfl, rfl⟩
  | close => exact ⟨rfl, rfl⟩
  | set c => exact ⟨rfl, rfl⟩

/-- No sequence of modelled operations changes the conversion constants. -/
theorem runOps_preserves_constants : ∀ (ops : List KobukiOp) (k : Kobuki),
    (runOps ops k).tick_to_mm = k.tick_to_mm ∧
    (runOps ops k).tick_to_rad = k.tick_to_rad := by
  intro ops
  induction ops with
  | nil => intro k; exact ⟨rfl, rfl⟩
  | cons op ops ih =>
    intro k
    have h1 := applyOp_preserves_constants op k
    have h2 := ih (applyOp op k)
    simp only [runOps]
    exact ⟨by rw [h2.1, h1.1], by rw [h2.2, h1.2]⟩

/-- C10.  The constructed driver carries `tick_to_mm = 0.0845813406577` and
`tick_to_rad = 0.00201384144460884` (the header's `const double` members,
initialised once in the constructor), every modelled operation — `init`
included — preserves them, and hence they hold after every operation
sequence for the lifetime of the instance. -/
theorem conversion_constants_fixed :
    (mkKobuki.tick_to_mm = 0.0845813406577 ∧
     mkKobuki.tick_to_rad = 0.00201384144460884) ∧
    (∀ (op : KobukiOp) (k : Kobuki),
      (applyOp op k).tick_to_mm = k.tick_to_mm ∧
      (applyOp op k).tick_to_rad = k.tick_to_rad) ∧
    (∀ ops : List KobukiOp,
      (runOps ops mkKobuki).tick_to_mm = 0.0845813406577 ∧
      (runOps ops mkKobuki).tick_to_rad = 0.00201384144460884) := by
  refine ⟨⟨rfl, rfl⟩, applyOp_preserves_constants, fun ops => ?_⟩
  have h := runOps_preserves_constants ops mkKobuki
  exact ⟨by rw [h.1]; rfl, by rw [h.2]; rfl⟩
